import Mathlib

/-!
Shallow embedding of the executable functions of the rl_blog repository
(notebook `ray/intro_to_ray.ipynb`).  Rows of the numeric matrix are lists
of rationals: exact arithmetic stands in for IEEE floats.  A Python slice
`row[a:b]` with `0 ≤ a ≤ b` becomes `(row.drop a).take (b - a)`.
-/

/-- Arithmetic mean of a list of rationals, modelling `np.mean`. -/
def mean (l : List ℚ) : ℚ := l.sum / l.length

/-- Guarded `np.mean`: the mean of an empty slice is the error condition
(numpy emits a RuntimeWarning there and yields NaN). -/
def mean? (l : List ℚ) : Option ℚ :=
  if l.isEmpty then none else some (l.sum / l.length)

/-- The notebook function `calc_moving_average(data, window=10)`: for each
row of `data`, output element `j` is `np.mean(row[j-window:j+1])` when
`j > window` and `np.mean(row[:j+1])` otherwise. -/
def calc_moving_average (data : List (List ℚ)) (window : Nat) : List (List ℚ) :=
  data.map (fun row =>
    (List.range row.length).map (fun j =>
      if j > window then mean ((row.drop (j - window)).take (window + 1))
      else mean (row.take (j + 1))))

/-- The second `@ray.remote` variant `calc_moving_average_ray(row, window=10)`:
the same per-index computation on a single row. -/
def calc_moving_average_ray (row : List ℚ) (window : Nat) : List ℚ :=
  (List.range row.length).map (fun j =>
    if j > window then mean ((row.drop (j - window)).take (window + 1))
    else mean (row.take (j + 1)))

/-- Option-valued list traversal, used to propagate the error condition of
`mean?` through the computation. -/
def mapOption (f : α → Option β) : List α → Option (List β)
  | [] => some []
  | a :: l =>
    match f a, mapOption f l with
    | some b, some bs => some (b :: bs)
    | _, _ => none

/-- `calc_moving_average` with every call to `np.mean` guarded: the result
is `none` exactly when some window is empty. -/
def calc_moving_average? (data : List (List ℚ)) (window : Nat) :
    Option (List (List ℚ)) :=
  mapOption (fun row =>
    mapOption (fun j =>
      if j > window then mean? ((row.drop (j - window)).take (window + 1))
      else mean? (row.take (j + 1)))
      (List.range row.length)) data

/-- The notebook function `timer(x)`, with wall-clock time made explicit:
`time.sleep(1)` advances the clock by one second, then `x` is returned
unchanged. -/
def timer (clock : ℚ) (x : α) : ℚ × α := (clock + 1, x)

/-- Heap state of `calc_moving_average`: the input array `data` and the
output array `ma_data` allocated by `np.zeros(data.shape)`. -/
structure MAState where
  data : List (List ℚ)
  ma_data : List (List ℚ)

/-- One iteration of the loop `for i, row in enumerate(data)`: the row
average is stored at `ma_data[i]`; `data` is only read. -/
def maStep (window : Nat) (s : MAState) (i : Nat) : MAState :=
  let newRow := (List.range (s.data.getD i []).length).map (fun j =>
    if j > window then
      mean (((s.data.getD i []).drop (j - window)).take (window + 1))
    else mean ((s.data.getD i []).take (j + 1)))
  { s with ma_data := s.ma_data.set i newRow }

/-- The imperative body of `calc_moving_average`: allocate
`ma_data = np.zeros(data.shape)`, run the loop over all row indices, and
return the final heap state. -/
def calc_moving_average_run (data : List (List ℚ)) (window : Nat) : MAState :=
  (List.range data.length).foldl (maStep window)
    { data := data, ma_data := data.map (fun row => row.map (fun _ => (0 : ℚ))) }

section Helpers

lemma getD_map_lt (f : α → β) (l : List α) (i : Nat) (d : β) (d' : α)
    (hi : i < l.length) : (l.map f).getD i d = f (l.getD i d') := by
  rw [List.getD_eq_getElem?_getD, List.getD_eq_getElem?_getD, List.getElem?_map,
    List.getElem?_eq_getElem hi]
  rfl

lemma getD_range_map (g : Nat → α) (n j : Nat) (d : α) (hj : j < n) :
    ((List.range n).map g).getD j d = g j := by
  rw [List.getD_eq_getElem?_getD, List.getElem?_map, List.getElem?_range hj]
  rfl

/-- Element `(i, j)` of the output of `calc_moving_average`, unfolded. -/
lemma calc_moving_average_getD (data : List (List ℚ)) (window i j : Nat)
    (hi : i < data.length) (hj : j < (data.getD i []).length) :
    ((calc_moving_average data window).getD i []).getD j 0 =
      if j > window then
        mean (((data.getD i []).drop (j - window)).take (window + 1))
      else mean ((data.getD i []).take (j + 1)) := by
  unfold calc_moving_average
  rw [getD_map_lt _ data i [] [] hi, getD_range_map _ _ _ _ hj]

/-- Output element `(i, j)` for `window ≤ j`: the trailing slice
`row[j-window:j+1]`.  At `j = window` the prefix branch is taken, but the
prefix `row[:j+1]` is that very slice. -/
lemma calc_getD_trailing (data : List (List ℚ)) (window i j : Nat)
    (hi : i < data.length) (hj : j < (data.getD i []).length)
    (hw : window ≤ j) :
    ((calc_moving_average data window).getD i []).getD j 0 =
      mean (((data.getD i []).drop (j - window)).take (window + 1)) := by
  rw [calc_moving_average_getD data window i j hi hj]
  rcases eq_or_lt_of_le hw with h | h
  · rw [if_neg (by omega)]
    rw [← h, Nat.sub_self, List.drop_zero]
  · rw [if_pos h]

lemma mean?_eq_mean (l : List ℚ) (h : l ≠ []) : mean? l = some (mean l) := by
  simp [mean?, mean, h]

lemma mapOption_eq_some (f : α → Option β) (g : α → β) (l : List α)
    (h : ∀ a ∈ l, f a = some (g a)) : mapOption f l = some (l.map g) := by
  induction l with
  | nil => rfl
  | cons a l ih =>
    rw [List.map_cons]
    unfold mapOption
    rw [h a (List.mem_cons_self a l), ih (fun b hb => h b (List.mem_cons_of_mem a hb))]

lemma maStep_data (window : Nat) (s : MAState) (i : Nat) :
    (maStep window s i).data = s.data := rfl

lemma foldl_maStep_data (window : Nat) (idxs : List Nat) (s : MAState) :
    (idxs.foldl (maStep window) s).data = s.data := by
  induction idxs generalizing s with
  | nil => rfl
  | cons i idxs ih => rw [List.foldl_cons, ih, maStep_data]

/-- Since the loop never writes `data`, the fold over states is a fold of
writes into `ma_data`, each row read from the unchanged `data`. -/
lemma foldl_maStep_ma (window : Nat) (idxs : List Nat) (s : MAState) :
    (idxs.foldl (maStep window) s).ma_data =
      idxs.foldl
        (fun m i => m.set i (calc_moving_average_ray (s.data.getD i []) window))
        s.ma_data := by
  induction idxs generalizing s with
  | nil => rfl
  | cons i idxs ih =>
    rw [List.foldl_cons, List.foldl_cons, ih]
    rfl

/-- Folding in-bounds writes `acc.set i (g i)` over `i = 0 .. k - 1` turns
the prefix of the accumulator into `map g` and keeps the rest. -/
lemma foldl_set_range (g : Nat → α) (k : Nat) (m : List α) (hk : k ≤ m.length) :
    (List.range k).foldl (fun acc i => acc.set i (g i)) m =
      (List.range k).map g ++ m.drop k := by
  induction k with
  | zero => simp
  | succ k ih =>
    have hdrop : m.drop k = m[k] :: m.drop (k + 1) :=
      List.drop_eq_getElem_cons (by omega)
    simp only [List.range_succ, List.foldl_append, List.map_append,
      List.foldl_cons, List.foldl_nil, ih (by omega)]
    rw [List.set_append]
    simp only [List.length_map, List.length_range]
    rw [if_neg (by omega), Nat.sub_self, hdrop, List.set_cons_zero]
    simp

lemma map_eq_range_map_getD (f : List ℚ → List ℚ) (data : List (List ℚ)) :
    (List.range data.length).map (fun i => f (data.getD i [])) = data.map f := by
  apply List.ext_getElem?
  intro n
  by_cases hn : n < data.length
  · rw [List.getElem?_map, List.getElem?_range hn, List.getElem?_map,
      List.getElem?_eq_getElem hn]
    simp [List.getD_eq_getElem?_getD, List.getElem?_eq_getElem hn]
  · have h1 : (List.range data.length)[n]? = none :=
      List.getElem?_eq_none (by simpa using hn)
    have h2 : data[n]? = none := List.getElem?_eq_none (by omega)
    rw [List.getElem?_map, List.getElem?_map, h1, h2]
    rfl

end Helpers

/-- C1: for every row `i` of the input and every index `j` with
`window ≤ j`, output element `j` of `calc_moving_average` is the arithmetic
mean of the input elements at indices `j - window` through `j` inclusive
(the slice `row[j-window:j+1]`); at `j = window` the prefix branch is taken
but coincides with that trailing mean. -/
theorem calc_moving_average_trailing_window_mean (data : List (List ℚ))
    (window i j : Nat) (hi : i < data.length)
    (hj : j < (data.getD i []).length) (hw : window ≤ j) :
    ((calc_moving_average data window).getD i []).getD j 0 =
      mean (((data.getD i []).drop (j - window)).take (window + 1)) :=
  calc_getD_trailing data window i j hi hj hw

/-- Witness for C1 at `data = [[1, 2, 3]]`, `window = 1`, `i = 0`, `j = 2`. -/
theorem calc_moving_average_trailing_window_mean_witness :
    ((calc_moving_average [[1, 2, 3]] 1).getD 0 []).getD 2 0 =
      mean (((([[1, 2, 3]] : List (List ℚ)).getD 0 []).drop (2 - 1)).take (1 + 1)) :=
  calc_moving_average_trailing_window_mean [[1, 2, 3]] 1 0 2 (by norm_num)
    (by norm_num) (by norm_num)

/-- C2: for every row `i` of the input and every index `j < window`, output
element `j` of `calc_moving_average` is the arithmetic mean of the input
elements at indices `0` through `j` inclusive (the growing prefix
`row[:j+1]`). -/
theorem calc_moving_average_prefix_mean (data : List (List ℚ))
    (window i j : Nat) (hi : i < data.length)
    (hj : j < (data.getD i []).length) (hjw : j < window) :
    ((calc_moving_average data window).getD i []).getD j 0 =
      mean ((data.getD i []).take (j + 1)) := by
  rw [calc_moving_average_getD data window i j hi hj, if_neg (by omega)]

/-- Witness for C2 at `data = [[5, 7]]`, `window = 2`, `i = 0`, `j = 1`. -/
theorem calc_moving_average_prefix_mean_witness :
    ((calc_moving_average [[5, 7]] 2).getD 0 []).getD 1 0 =
      mean ((([[5, 7]] : List (List ℚ)).getD 0 []).take (1 + 1)) :=
  calc_moving_average_prefix_mean [[5, 7]] 2 0 1 (by norm_num) (by norm_num)
    (by norm_num)

/-- C4: computing the moving average row by row with the remote row-level
function `calc_moving_average_ray` and stacking the rows in order yields
exactly the whole-matrix result of `calc_moving_average` (exact
arithmetic): the result is invariant to the decomposition over rows. -/
theorem calc_moving_average_row_decomposition (data : List (List ℚ))
    (window : Nat) :
    calc_moving_average data window =
      data.map (fun row => calc_moving_average_ray row window) := rfl

/-- C5: `calc_moving_average` produces one output row per input row, and
each output row has exactly the length of the corresponding input row. -/
theorem calc_moving_average_length (data : List (List ℚ)) (window : Nat) :
    (calc_moving_average data window).length = data.length ∧
    ∀ i, ((calc_moving_average data window).getD i []).length =
      (data.getD i []).length := by
  constructor
  · simp [calc_moving_average]
  · intro i
    by_cases hi : i < data.length
    · unfold calc_moving_average
      rw [getD_map_lt _ data i [] [] hi]
      simp
    · rw [List.getD_eq_default, List.getD_eq_default]
      · omega
      · simp [calc_moving_average]
        omega

/-- C6: `timer` returns its argument unchanged; the one-second pause only
advances the clock and has no effect on the returned value. -/
theorem timer_returns_input (clock : ℚ) (x : α) : (timer clock x).2 = x := rfl

/-- C7: both functions are total.  The guarded version of
`calc_moving_average`, in which an empty window is the error condition,
reaches no error on any input matrix and any window size, and `timer`
succeeds on any argument, returning the advanced clock and its input. -/
theorem calc_moving_average_and_timer_total (data : List (List ℚ))
    (window : Nat) (clock : ℚ) (x : α) :
    calc_moving_average? data window = some (calc_moving_average data window) ∧
    timer clock x = (clock + 1, x) := by
  refine ⟨?_, rfl⟩
  unfold calc_moving_average? calc_moving_average
  apply mapOption_eq_some
  intro row _
  apply mapOption_eq_some
  intro j hj
  rw [List.mem_range] at hj
  by_cases h : j > window
  · rw [if_pos h, if_pos h, mean?_eq_mean]
    apply List.ne_nil_of_length_pos
    rw [List.length_take, List.length_drop]
    omega
  · rw [if_neg h, if_neg h, mean?_eq_mean]
    apply List.ne_nil_of_length_pos
    rw [List.length_take]
    omega

/-- C9: no call to `np.mean` inside `calc_moving_average` ever averages an
empty slice: each output element is the mean of the branch-selected slice;
the prefix branch averages exactly `j + 1 ≥ 1` elements; when the trailing
branch is taken (`j > window`) the slice start `j - window` is at least `1`
(so the Python slice neither wraps around through a negative start nor is
empty) and the slice holds exactly `window + 1` elements. -/
theorem calc_moving_average_no_empty_window (data : List (List ℚ))
    (window i j : Nat) (hi : i < data.length)
    (hj : j < (data.getD i []).length) :
    ((calc_moving_average data window).getD i []).getD j 0 =
      mean (if j > window then
              ((data.getD i []).drop (j - window)).take (window + 1)
            else (data.getD i []).take (j + 1)) ∧
    (¬ j > window → ((data.getD i []).take (j + 1)).length = j + 1 ∧ 1 ≤ j + 1) ∧
    (j > window → 1 ≤ (j : ℤ) - (window : ℤ) ∧
      (((data.getD i []).drop (j - window)).take (window + 1)).length = window + 1) ∧
    (if j > window then ((data.getD i []).drop (j - window)).take (window + 1)
     else (data.getD i []).take (j + 1)) ≠ [] := by
  refine ⟨?_, ?_, ?_, ?_⟩
  · rw [calc_moving_average_getD data window i j hi hj, apply_ite mean]
  · intro h
    rw [List.length_take]
    omega
  · intro h
    refine ⟨by omega, ?_⟩
    rw [List.length_take, List.length_drop]
    omega
  · by_cases h : j > window
    · rw [if_pos h]
      apply List.ne_nil_of_length_pos
      rw [List.length_take, List.length_drop]
      omega
    · rw [if_neg h]
      apply List.ne_nil_of_length_pos
      rw [List.length_take]
      omega

/-- Witness for C9 at `data = [[4, 5, 6]]`, `window = 0`, `i = 0`, `j = 2`. -/
theorem calc_moving_average_no_empty_window_witness :
    ((calc_moving_average [[4, 5, 6]] 0).getD 0 []).getD 2 0 =
      mean (if 2 > 0 then
              ((([[4, 5, 6]] : List (List ℚ)).getD 0 []).drop (2 - 0)).take (0 + 1)
            else (([[4, 5, 6]] : List (List ℚ)).getD 0 []).take (2 + 1)) ∧
    (¬ 2 > 0 → ((([[4, 5, 6]] : List (List ℚ)).getD 0 []).take (2 + 1)).length = 2 + 1 ∧ 1 ≤ 2 + 1) ∧
    (2 > 0 → 1 ≤ (2 : ℤ) - (0 : ℤ) ∧
      (((([[4, 5, 6]] : List (List ℚ)).getD 0 []).drop (2 - 0)).take (0 + 1)).length = 0 + 1) ∧
    (if 2 > 0 then ((([[4, 5, 6]] : List (List ℚ)).getD 0 []).drop (2 - 0)).take (0 + 1)
     else (([[4, 5, 6]] : List (List ℚ)).getD 0 []).take (2 + 1)) ≠ [] :=
  calc_moving_average_no_empty_window [[4, 5, 6]] 0 0 2 (by norm_num) (by norm_num)

/-- C10: when a row has length at most `window + 1`, `calc_moving_average`
degenerates on that row to the cumulative prefix mean: the trailing branch
is never taken and every output element `j` is the mean of elements `0`
through `j`. -/
theorem calc_moving_average_short_row_prefix (data : List (List ℚ))
    (window i : Nat) (hi : i < data.length)
    (hn : (data.getD i []).length ≤ window + 1) :
    ∀ j, j < (data.getD i []).length →
      ¬ j > window ∧
      ((calc_moving_average data window).getD i []).getD j 0 =
        mean ((data.getD i []).take (j + 1)) := by
  intro j hj
  have hjw : ¬ j > window := by omega
  exact ⟨hjw, by rw [calc_moving_average_getD data window i j hi hj, if_neg hjw]⟩

/-- Witness for C10 at `data = [[3, 9]]`, `window = 1`, `i = 0`, `j = 1`. -/
theorem calc_moving_average_short_row_prefix_witness :
    ¬ 1 > 1 ∧
    ((calc_moving_average [[3, 9]] 1).getD 0 []).getD 1 0 =
      mean ((([[3, 9]] : List (List ℚ)).getD 0 []).take (1 + 1)) :=
  calc_moving_average_short_row_prefix [[3, 9]] 1 0 (by norm_num) (by norm_num) 1
    (by norm_num)

/-- C3, counterexample: with `window = 1` and row `[0, 2]`, output element
`1` equals `1`, but the only nonempty trailing window ending at index `1`
with at most `window = 1` elements is the slice `[2]`, whose mean is `2`.
So not every output element is the mean of a trailing window of at most
`window` elements: the full window actually holds `window + 1` elements. -/
theorem calc_moving_average_window_size_counterexample :
    ((calc_moving_average [[0, 2]] 1).getD 0 []).getD 1 0 = 1 ∧
    mean ((([0, 2] : List ℚ).drop 1).take 1) = 2 ∧
    (1 : ℚ) ≠ 2 := by
  norm_num [calc_moving_average, mean, List.range_succ]

/-- C3, amended: every output element of `calc_moving_average` is the
arithmetic mean of a trailing window of at most `window + 1` elements;
exactly the indices `j = 0 .. window - 1` use a shorter, growing window of
`j + 1 ≤ window` elements, while every index `j ≥ window` uses the full
trailing window of `window + 1` elements ending at `j`. -/
theorem calc_moving_average_window_size_amended (data : List (List ℚ))
    (window i j : Nat) (hi : i < data.length)
    (hj : j < (data.getD i []).length) :
    (j < window →
      ((calc_moving_average data window).getD i []).getD j 0 =
        mean ((data.getD i []).take (j + 1)) ∧
      ((data.getD i []).take (j + 1)).length = j + 1 ∧ j + 1 ≤ window) ∧
    (window ≤ j →
      ((calc_moving_average data window).getD i []).getD j 0 =
        mean (((data.getD i []).drop (j - window)).take (window + 1)) ∧
      (((data.getD i []).drop (j - window)).take (window + 1)).length =
        window + 1) := by
  constructor
  · intro h
    refine ⟨?_, ?_, by omega⟩
    · rw [calc_moving_average_getD data window i j hi hj, if_neg (by omega)]
    · rw [List.length_take]
      omega
  · intro h
    refine ⟨calc_getD_trailing data window i j hi hj h, ?_⟩
    rw [List.length_take, List.length_drop]
    omega

/-- Witness for the amended C3 at `data = [[1, 2, 3]]`, `window = 2`,
`i = 0`, `j = 1`. -/
theorem calc_moving_average_window_size_amended_witness :
    (1 < 2 →
      ((calc_moving_average [[1, 2, 3]] 2).getD 0 []).getD 1 0 =
        mean ((([[1, 2, 3]] : List (List ℚ)).getD 0 []).take (1 + 1)) ∧
      ((([[1, 2, 3]] : List (List ℚ)).getD 0 []).take (1 + 1)).length = 1 + 1 ∧
        1 + 1 ≤ 2) ∧
    (2 ≤ 1 →
      ((calc_moving_average [[1, 2, 3]] 2).getD 0 []).getD 1 0 =
        mean (((([[1, 2, 3]] : List (List ℚ)).getD 0 []).drop (1 - 2)).take (2 + 1)) ∧
      (((([[1, 2, 3]] : List (List ℚ)).getD 0 []).drop (1 - 2)).take (2 + 1)).length =
        2 + 1) :=
  calc_moving_average_window_size_amended [[1, 2, 3]] 2 0 1 (by norm_num)
    (by norm_num)

/-- C8: `calc_moving_average` never modifies its input.  Running the
imperative loop from the initial heap (input `data` plus the freshly
allocated zero array of the same shape) leaves `data` unchanged and puts
the moving averages in the fresh output array only. -/
theorem calc_moving_average_frame (data : List (List ℚ)) (window : Nat) :
    (calc_moving_average_run data window).data = data ∧
    (calc_moving_average_run data window).ma_data =
      calc_moving_average data window := by
  constructor
  · exact foldl_maStep_data window (List.range data.length) _
  · unfold calc_moving_average_run
    rw [foldl_maStep_ma]
    show (List.range data.length).foldl
        (fun m i => m.set i (calc_moving_average_ray (data.getD i []) window))
        (data.map (fun row => row.map (fun _ => (0 : ℚ)))) =
      calc_moving_average data window
    have hzlen : (data.map (fun row => row.map (fun _ => (0 : ℚ)))).length =
        data.length := by simp
    rw [foldl_set_range _ data.length _ (by rw [hzlen])]
    have hdrop : (data.map (fun row => row.map (fun _ => (0 : ℚ)))).drop
        data.length = [] := by
      rw [← hzlen]
      exact List.drop_length _
    rw [hdrop, List.append_nil]
    exact map_eq_range_map_getD (fun row => calc_moving_average_ray row window) data
